import Mathlib

/-!
# Verification of `mypy_django_plugin_newsemanal/transformers/models.py`

A shallow embedding of the model-class transformer core: the four
`ModelClassInitializer` variants (`InjectAnyAsBaseForNestedMeta`,
`AddDefaultPrimaryKey`, `AddRelatedModelsId`, `AddManagers`) and the
orchestrator `process_model_class`.

The checker (mypy) and the ORM reflection layer (`DjangoContext`,
`helpers`, `fields`) are external collaborators of this file's source:
they are represented abstractly as read-only data and function fields of
an environment record `Ctx`, following the interfaces the source calls
(`lookup_fully_qualified_or_none`, `get_model_class_by_fullname`,
`_meta.auto_field`, `_meta.get_fields()`, `_meta.managers_map`,
`_meta.default_manager`, `get_field_nullability`,
`get_field_descriptor_types`, `final_iteration`, `defer`).

Mutation of `self.model_classdef.info` (the class's `TypeInfo`) is made
explicit: every `run` method becomes a function `ClassInfo → ClassInfo × Bool`
where the `Bool` records whether `IncompleteDefnException` was raised.
Partial in-place mutation before a raise is preserved, exactly as in
Python. The class's symbol table `info.names` is an association list with
Python-dict assignment semantics (`setk` replaces the first occurrence of
a key in place, otherwise appends).
-/

namespace DjangoStubs

/-- The mypy types this subsystem builds: `Instance(typeinfo, args)`
(identified by the `TypeInfo`'s fully qualified name) plus an opaque
constructor for any other type a symbol may carry. -/
inductive MypyType where
  | instance (fullname : String) (args : List MypyType)
  | otherType (tag : Nat)

/-- Boolean equality for the nested inductive `MypyType`. -/
def MypyType.beq : MypyType → MypyType → Bool
  | .instance f1 args1, .instance f2 args2 =>
      f1 == f2 && beqList args1 args2
  | .otherType t1, .otherType t2 => t1 == t2
  | _, _ => false
where beqList : List MypyType → List MypyType → Bool
  | [], [] => true
  | x :: xs, y :: ys => MypyType.beq x y && beqList xs ys
  | _, _ => false

theorem MypyType.beq_spec : ∀ t u : MypyType, MypyType.beq t u = true ↔ t = u :=
  MypyType.beq.induct
    (fun xs ys => MypyType.beq.beqList xs ys = true ↔ xs = ys)
    (fun t u => MypyType.beq t u = true ↔ t = u)
    (by intro f1 a1 f2 a2 ih; simp [MypyType.beq, ih])
    (by intro t1 t2; simp [MypyType.beq])
    (by
      intro t x h1 h2
      cases t <;> cases x
      · exact (h1 _ _ _ _ rfl rfl).elim
      · simp [MypyType.beq]
      · simp [MypyType.beq]
      · exact (h2 _ _ rfl rfl).elim)
    (by simp [MypyType.beq.beqList])
    (by intro x xs y ys ih1 ih2; simp [MypyType.beq.beqList, ih1, ih2])
    (by
      intro t x h1 h2
      cases t <;> cases x
      · exact (h1 rfl rfl).elim
      · simp [MypyType.beq.beqList]
      · simp [MypyType.beq.beqList]
      · exact (h2 _ _ _ _ rfl rfl).elim)

instance : DecidableEq MypyType := fun t u =>
  decidable_of_iff (MypyType.beq t u = true) (MypyType.beq_spec t u)

/-- `mypy.nodes.Var` as constructed by `add_new_node_to_model_class`:
`Var(name=name, type=typ)` with `info`, `_fullname`,
`is_initialized_in_class` and `is_inferred` set explicitly. -/
structure Var where
  name : String
  type : MypyType
  info : String
  fullname : String
  is_initialized_in_class : Bool
  is_inferred : Bool
  deriving DecidableEq

/-- The node held by a symbol-table entry: the `Var`s this subsystem
creates, or any other kind of node (user-written members, nested classes,
methods, ...). -/
inductive SymNode where
  | var (v : Var)
  | otherNode (tag : Nat)
  deriving DecidableEq

/-- Symbol-table entry kinds; this subsystem only ever creates `MDEF`. -/
inductive SymKind where
  | mdef
  | otherKind
  deriving DecidableEq

/-- `mypy.nodes.SymbolTableNode`. -/
structure SymbolTableNode where
  kind : SymKind
  node : SymNode
  plugin_generated : Bool
  deriving DecidableEq

/-- Python-dict assignment on an association list: replace the first
occurrence of the key in place, else append at the end.  This is the
semantics of `self.model_classdef.info.names[name] = sym`. -/
def setk {α : Type} (l : List (String × α)) (k : String) (v : α) :
    List (String × α) :=
  match l with
  | [] => [(k, v)]
  | (k', v') :: rest => if k' = k then (k, v) :: rest else (k', v') :: setk rest k v

/-- The nested `Meta` class's `TypeInfo`, as far as this subsystem touches
it: only its `fallback_to_any` flag. -/
structure MetaInfo where
  fallback_to_any : Bool
  deriving DecidableEq

/-- The mutable state of `self.model_classdef.info`: its fully qualified
name, its symbol table `names`, and its nested `Meta` class node when one
is defined.  `base_lookup` models `TypeInfo.get` on the base classes in
the MRO (read-only here: no initializer mutates a base class), so that
`has_readable_member` can be expressed. -/
structure ClassInfo where
  fullname : String
  names : List (String × SymbolTableNode)
  meta : Option MetaInfo
  base_readable : List String
  deriving DecidableEq

/-- `mypy.nodes.TypeInfo.has_readable_member(name)`, i.e.
`self.get(name) is not None`: the name resolves on the class itself or on
a base in its MRO. -/
def hasReadableMember (info : ClassInfo) (name : String) : Bool :=
  (info.names.lookup name).isSome || info.base_readable.contains name

/-- What `api.lookup_fully_qualified_or_none` may return for a name:
nothing, a symbol whose node is a `TypeInfo` (identified by its fully
qualified name), or a symbol whose node is not a `TypeInfo`. -/
inductive LookupResult where
  | absent
  | typeinfo (fullname : String)
  | nonTypeSym
  deriving DecidableEq

/-- A Django field instance as the source reads it through reflection:
`attname`, the fully qualified name of `field.__class__`
(`helpers.get_class_fullname`), whether `isinstance(field, ForeignKey)`,
and `field.related_model` (an opaque reference, only consulted for
foreign keys). -/
structure DField where
  attname : String
  cls_fullname : String
  is_foreign_key : Bool
  related_model : Nat
  deriving DecidableEq

/-- A Django manager instance as the source reads it: the fully qualified
name of `manager.__class__`. -/
structure DManager where
  cls_fullname : String
  deriving DecidableEq

/-- The runtime model class returned by
`django_context.get_model_class_by_fullname`: its `_meta.auto_field`,
`_meta.get_fields()`, `_meta.managers_map` (a dict: ordered, distinct
keys) and `_meta.default_manager`. -/
structure ModelCls where
  auto_field : Option DField
  meta_fields : List DField
  managers_map : List (String × DManager)
  default_manager : DManager

/-- The read-only environment of one `process_model_class` invocation:
the checker API (`lookup_fully_qualified_or_none`, `final_iteration`) and
the ORM reflection handle (`DjangoContext`), plus the accessor-typing
collaborator `get_field_descriptor_types` from
`transformers/fields.py`.

Modelled from the spec: `DjangoContext` (resolve-model-by-fullname,
primary-key field of a model, field nullability), `helpers` and
`transformers/fields.py` are code of this repository outside the given
source file; they are represented here by the interface the spec
describes in sections 4.1, 6 and 9 (a read-only reflection provider and
an accessor-typing collaborator producing a (set-type, get-type) pair
from a field's type-definition node and a nullability flag). -/
structure Ctx where
  api_lookup : String → LookupResult
  final_iteration : Bool
  get_model_class_by_fullname : String → Option ModelCls
  get_primary_key_field : Nat → DField
  get_field_nullability : DField → Bool
  get_field_descriptor_types : String → Bool → MypyType × MypyType

/-- `ModelClassInitializer.lookup_typeinfo_or_incomplete_defn_error`:
resolve a fully qualified name; raise `IncompleteDefnException` when the
name is absent or its node is not a `TypeInfo`. -/
def lookup_typeinfo_or_incomplete_defn_error (ctx : Ctx) (fullname : String) :
    Except Unit String :=
  match ctx.api_lookup fullname with
  | .absent => .error ()
  | .nonTypeSym => .error ()
  | .typeinfo tn => .ok tn

/-- `ModelClassInitializer.lookup_field_typeinfo_or_incomplete_defn_error`:
derive the field's runtime class's fully qualified name and delegate. -/
def lookup_field_typeinfo_or_incomplete_defn_error (ctx : Ctx) (field : DField) :
    Except Unit String :=
  lookup_typeinfo_or_incomplete_defn_error ctx field.cls_fullname

/-- `ModelClassInitializer.add_new_node_to_model_class`: build a `Var`
bound to the model class and install it in `info.names` under `name`,
`plugin_generated=True`. -/
def add_new_node_to_model_class (info : ClassInfo) (name : String)
    (typ : MypyType) : ClassInfo :=
  let var : Var :=
    { name := name
      type := typ
      info := info.fullname
      fullname := info.fullname ++ "." ++ name
      is_initialized_in_class := true
      is_inferred := true }
  { info with
      names := setk info.names name
        { kind := .mdef, node := .var var, plugin_generated := true } }

/-- Modelled from the spec:
`helpers.get_nested_meta_node_for_current_class` is code of this
repository outside the given source file; per spec section 4.3 it yields
the nested `Meta` inner class's type-definition node when the model class
defines one, else nothing. -/
def get_nested_meta_node_for_current_class (info : ClassInfo) :
    Option MetaInfo :=
  info.meta

/-- `InjectAnyAsBaseForNestedMeta.run`: if a nested `Meta` node exists,
set its `fallback_to_any` flag; otherwise return with no change.  Never
raises. -/
def injectAnyAsBaseForNestedMeta_run (_ctx : Ctx) (info : ClassInfo) :
    ClassInfo × Bool :=
  match get_nested_meta_node_for_current_class info with
  | none => (info, false)
  | some m => ({ info with meta := some { m with fallback_to_any := true } }, false)

/-- `AddDefaultPrimaryKey.run`: resolve the runtime model (skip when
unresolvable); if it has an `auto_field` whose `attname` is not already a
readable member, resolve the field class's `TypeInfo` (may raise) and
inject `Instance(auto_field_info, [set_type, get_type])` computed
non-nullable. -/
def addDefaultPrimaryKey_run (ctx : Ctx) (info : ClassInfo) :
    ClassInfo × Bool :=
  match ctx.get_model_class_by_fullname info.fullname with
  | none => (info, false)
  | some model_cls =>
    match model_cls.auto_field with
    | none => (info, false)
    | some auto_field =>
      if hasReadableMember info auto_field.attname then (info, false)
      else
        match lookup_typeinfo_or_incomplete_defn_error ctx auto_field.cls_fullname with
        | .error _ => (info, true)
        | .ok auto_field_info =>
          let types := ctx.get_field_descriptor_types auto_field_info false
          (add_new_node_to_model_class info auto_field.attname
            (.instance auto_field_info [types.1, types.2]), false)

/-- The loop body of `AddRelatedModelsId.run` over
`model_cls._meta.get_fields()`: for each `ForeignKey` field, resolve the
related model's primary-key field's `TypeInfo` (raising aborts the loop
but keeps earlier injections), query nullability, and unconditionally
inject under `field.attname`. -/
def addRelatedModelsId_loop (ctx : Ctx) (fields : List DField)
    (info : ClassInfo) : ClassInfo × Bool :=
  match fields with
  | [] => (info, false)
  | field :: rest =>
    if field.is_foreign_key then
      let rel_primary_key_field := ctx.get_primary_key_field field.related_model
      match lookup_field_typeinfo_or_incomplete_defn_error ctx rel_primary_key_field with
      | .error _ => (info, true)
      | .ok field_info =>
        let is_nullable := ctx.get_field_nullability field
        let types := ctx.get_field_descriptor_types field_info is_nullable
        addRelatedModelsId_loop ctx rest
          (add_new_node_to_model_class info field.attname
            (.instance field_info [types.1, types.2]))
    else addRelatedModelsId_loop ctx rest info

/-- `AddRelatedModelsId.run`: resolve the runtime model (skip when
unresolvable), then run the foreign-key loop. -/
def addRelatedModelsId_run (ctx : Ctx) (info : ClassInfo) :
    ClassInfo × Bool :=
  match ctx.get_model_class_by_fullname info.fullname with
  | none => (info, false)
  | some model_cls => addRelatedModelsId_loop ctx model_cls.meta_fields info

/-- The loop body of `AddManagers.run` over
`model_cls._meta.managers_map.items()`: inject each manager name not
already in `info.names` as `Instance(manager_info, [Instance(model, [])])`;
a failed `TypeInfo` lookup raises, aborting the loop but keeping earlier
injections. -/
def addManagers_loop (ctx : Ctx) (managers : List (String × DManager))
    (info : ClassInfo) : ClassInfo × Bool :=
  match managers with
  | [] => (info, false)
  | (manager_name, manager) :: rest =>
    if (info.names.lookup manager_name).isSome then
      addManagers_loop ctx rest info
    else
      match lookup_typeinfo_or_incomplete_defn_error ctx manager.cls_fullname with
      | .error _ => (info, true)
      | .ok manager_info =>
        addManagers_loop ctx rest
          (add_new_node_to_model_class info manager_name
            (.instance manager_info [.instance info.fullname []]))

/-- `AddManagers.run`: resolve the runtime model (skip when unresolvable);
inject each manager from `managers_map` not already present; then, if
`_default_manager` is not already in `names`, resolve the default
manager's class and inject it under `_default_manager`. -/
def addManagers_run (ctx : Ctx) (info : ClassInfo) : ClassInfo × Bool :=
  match ctx.get_model_class_by_fullname info.fullname with
  | none => (info, false)
  | some model_cls =>
    match addManagers_loop ctx model_cls.managers_map info with
    | (info1, true) => (info1, true)
    | (info1, false) =>
      if (info1.names.lookup "_default_manager").isSome then (info1, false)
      else
        match lookup_typeinfo_or_incomplete_defn_error ctx
            model_cls.default_manager.cls_fullname with
        | .error _ => (info1, true)
        | .ok default_manager_info =>
          (add_new_node_to_model_class info1 "_default_manager"
            (.instance default_manager_info [.instance info1.fullname []]), false)

/-- The four `ModelClassInitializer` subclasses, as tags. -/
inductive InitTag where
  | injectAnyAsBaseForNestedMeta
  | addDefaultPrimaryKey
  | addRelatedModelsId
  | addManagers
  deriving DecidableEq

/-- Dispatch `initializer_cls.from_ctx(ctx, django_context).run()`. -/
def run_initializer (tag : InitTag) (ctx : Ctx) (info : ClassInfo) :
    ClassInfo × Bool :=
  match tag with
  | .injectAnyAsBaseForNestedMeta => injectAnyAsBaseForNestedMeta_run ctx info
  | .addDefaultPrimaryKey => addDefaultPrimaryKey_run ctx info
  | .addRelatedModelsId => addRelatedModelsId_run ctx info
  | .addManagers => addManagers_run ctx info

/-- The observable state of one `process_model_class` invocation: the
class's `TypeInfo`, the number of `ctx.api.defer()` calls made, the
number of `IncompleteDefnException`s caught, and the initializers run so
far (in order). -/
structure OrchState where
  info : ClassInfo
  defer_calls : Nat
  raises : Nat
  ran : List InitTag

/-- One iteration of the orchestrator's loop:
`try: initializer_cls.from_ctx(ctx, django_context).run()
 except IncompleteDefnException: if not ctx.api.final_iteration: ctx.api.defer()`.
The class state is whatever `run` left behind (in-place mutation persists
through the raise). -/
def process_initializer (ctx : Ctx) (st : OrchState) (tag : InitTag) :
    OrchState :=
  let out := run_initializer tag ctx st.info
  { info := out.1
    defer_calls :=
      st.defer_calls + (if out.2 && !ctx.final_iteration then 1 else 0)
    raises := st.raises + (if out.2 then 1 else 0)
    ran := st.ran ++ [tag] }

/-- The fixed `initializers` list of `process_model_class`. -/
def initializers : List InitTag :=
  [.injectAnyAsBaseForNestedMeta, .addDefaultPrimaryKey,
   .addRelatedModelsId, .addManagers]

/-- `process_model_class(ctx, django_context)`. -/
def process_model_class (ctx : Ctx) (info : ClassInfo) : OrchState :=
  initializers.foldl (process_initializer ctx)
    { info := info, defer_calls := 0, raises := 0, ran := [] }

/-- The symbol-table entry `add_new_node_to_model_class` installs for a
class with fully qualified name `fn`, member `name` and type `typ`. -/
def mkVarSym (fn name : String) (typ : MypyType) : SymbolTableNode :=
  { kind := .mdef
    node := .var
      { name := name
        type := typ
        info := fn
        fullname := fn ++ "." ++ name
        is_initialized_in_class := true
        is_inferred := true }
    plugin_generated := true }

/-- The attribute names of the foreign-key fields of a field list: the
keys the `AddRelatedModelsId` loop may write. -/
def fkAttnames (fields : List DField) : List String :=
  (fields.filter (fun f => f.is_foreign_key)).map (fun f => f.attname)

/-- The foreign-key fields actually written by the `AddRelatedModelsId`
loop before its first failing `TypeInfo` lookup (writes are determined by
`ctx` alone, so this is state-independent). -/
def fkWritten (ctx : Ctx) : List DField → List DField
  | [] => []
  | field :: rest =>
    if field.is_foreign_key then
      match lookup_field_typeinfo_or_incomplete_defn_error ctx
          (ctx.get_primary_key_field field.related_model) with
      | .error _ => []
      | .ok _ => field :: fkWritten ctx rest
    else fkWritten ctx rest

/-- The distinctness every real reflection handle guarantees for the
foreign-key shadow columns of one model (Django column names are unique
per model): pairwise distinct `attname`s among a model's foreign-key
fields, stated for the model `ctx` resolves for `fullname` (trivial when
none resolves). -/
def FkAttnamesDistinct (ctx : Ctx) (fullname : String) : Prop :=
  match ctx.get_model_class_by_fullname fullname with
  | none => True
  | some mc => (fkAttnames mc.meta_fields).Nodup

instance (ctx : Ctx) (fullname : String) :
    Decidable (FkAttnamesDistinct ctx fullname) := by
  unfold FkAttnamesDistinct
  cases ctx.get_model_class_by_fullname fullname with
  | none => exact inferInstanceAs (Decidable True)
  | some mc => exact List.nodupDecidable _

/-! ## Concrete fixtures

A small model universe in the shape of the spec's section 8 example:
`app.Book` has an auto `id` primary key, a nullable `ForeignKey` whose
shadow column is `author_id`, and one manager `objects`; the user has
already declared a member named `author_id` on the class. -/

/-- A user-declared (not plugin-generated) symbol. -/
def userSym : SymbolTableNode :=
  { kind := .otherKind, node := .otherNode 7, plugin_generated := false }

/-- The `app.Book` class definition state before any injection, with a
user-declared `author_id` member and a nested `Meta` class. -/
def bookInfo : ClassInfo :=
  { fullname := "app.Book"
    names := [("author_id", userSym)]
    meta := some { fallback_to_any := false }
    base_readable := [] }

/-- The auto-generated primary-key field of both models. -/
def idField : DField :=
  { attname := "id", cls_fullname := "django.db.models.AutoField"
    is_foreign_key := false, related_model := 0 }

/-- `Book.author`, a nullable foreign key with shadow column `author_id`. -/
def authorFK : DField :=
  { attname := "author_id", cls_fullname := "django.db.models.ForeignKey"
    is_foreign_key := true, related_model := 1 }

/-- The default `objects` manager. -/
def objManager : DManager := { cls_fullname := "django.db.models.Manager" }

/-- The runtime model class reflection data for `app.Book`. -/
def bookModel : ModelCls :=
  { auto_field := some idField
    meta_fields := [idField, authorFK]
    managers_map := [("objects", objManager)]
    default_manager := objManager }

/-- An environment in which every lookup this example needs resolves. -/
def exCtx : Ctx :=
  { api_lookup := fun n =>
      if n = "django.db.models.AutoField" then .typeinfo "django.db.models.AutoField"
      else if n = "django.db.models.Manager" then .typeinfo "django.db.models.Manager"
      else .absent
    final_iteration := false
    get_model_class_by_fullname := fun n => if n = "app.Book" then some bookModel else none
    get_primary_key_field := fun _ => idField
    get_field_nullability := fun f => f.attname = "author_id"
    get_field_descriptor_types := fun tn b =>
      (MypyType.instance tn [], if b then .otherType 1 else .otherType 0) }

/-- An environment in which the field-class lookup has not resolved yet
(`AutoField` is absent from the symbol table), in a non-final iteration:
the primary-key and foreign-key injectors raise `IncompleteDefnException`
here while the manager injector succeeds. -/
def deferCtx : Ctx :=
  { exCtx with
      api_lookup := fun n =>
        if n = "django.db.models.Manager" then .typeinfo "django.db.models.Manager"
        else .absent }

/-- An environment in which no model class resolves at all. -/
def noModelCtx : Ctx :=
  { exCtx with get_model_class_by_fullname := fun _ => none }

/-! ## Dictionary-assignment laws -/

theorem lookup_setk_self {α : Type} (l : List (String × α)) (k : String) (v : α) :
    (setk l k v).lookup k = some v := by
  induction l with
  | nil => simp [setk, List.lookup]
  | cons hd tl ih =>
      obtain ⟨k', v'⟩ := hd
      by_cases h : k' = k
      · simp [setk, h, List.lookup]
      · simp only [setk, if_neg h, List.lookup]
        have : (k == k') = false := by
          simp [beq_eq_false_iff_ne]
          exact fun hh => h hh.symm
        rw [this]
        exact ih

theorem lookup_setk_ne {α : Type} (l : List (String × α)) (k k' : String) (v : α)
    (h : k' ≠ k) : (setk l k v).lookup k' = l.lookup k' := by
  induction l with
  | nil =>
      simp only [setk, List.lookup]
      have : (k' == k) = false := by simp [beq_eq_false_iff_ne, h]
      rw [this]
  | cons hd tl ih =>
      obtain ⟨k0, v0⟩ := hd
      by_cases hk : k0 = k
      · subst hk
        simp only [setk, if_pos rfl, List.lookup]
        have : (k' == k0) = false := by simp [beq_eq_false_iff_ne, h]
        rw [this]
      · simp only [setk, if_neg hk, List.lookup]
        cases hh : (k' == k0) with
        | true => rfl
        | false => exact ih

theorem setk_eq_of_lookup {α : Type} (l : List (String × α)) (k : String) (v : α)
    (h : l.lookup k = some v) : setk l k v = l := by
  induction l with
  | nil => simp [List.lookup] at h
  | cons hd tl ih =>
      obtain ⟨k0, v0⟩ := hd
      by_cases hk : k0 = k
      · subst hk
        simp only [List.lookup, beq_self_eq_true] at h
        simp only [setk, if_pos rfl]
        cases h
        rfl
      · simp only [setk, if_neg hk]
        simp only [List.lookup] at h
        have : (k == k0) = false := by
          simp [beq_eq_false_iff_ne]
          exact fun hh => hk hh.symm
        rw [this] at h
        rw [ih h]

theorem isSome_lookup_setk {α : Type} (l : List (String × α)) (k k' : String) (v : α)
    (h : (l.lookup k').isSome = true) : ((setk l k v).lookup k').isSome = true := by
  by_cases hk : k' = k
  · subst hk; rw [lookup_setk_self]; rfl
  · rw [lookup_setk_ne l k k' v hk]; exact h

/-! ## Branch equations for the runs and loops -/

theorem meta_run_none (ctx : Ctx) (info : ClassInfo) (h : info.meta = none) :
    injectAnyAsBaseForNestedMeta_run ctx info = (info, false) := by
  simp [injectAnyAsBaseForNestedMeta_run, get_nested_meta_node_for_current_class, h]

theorem meta_run_some (ctx : Ctx) (info : ClassInfo) (m : MetaInfo)
    (h : info.meta = some m) :
    injectAnyAsBaseForNestedMeta_run ctx info =
      ({ info with meta := some { fallback_to_any := true } }, false) := by
  simp [injectAnyAsBaseForNestedMeta_run, get_nested_meta_node_for_current_class, h]

theorem pk_run_none (ctx : Ctx) (info : ClassInfo)
    (hm : ctx.get_model_class_by_fullname info.fullname = none) :
    addDefaultPrimaryKey_run ctx info = (info, false) := by
  simp [addDefaultPrimaryKey_run, hm]

theorem pk_run_noauto (ctx : Ctx) (info : ClassInfo) (mc : ModelCls)
    (hm : ctx.get_model_class_by_fullname info.fullname = some mc)
    (haf : mc.auto_field = none) :
    addDefaultPrimaryKey_run ctx info = (info, false) := by
  simp [addDefaultPrimaryKey_run, hm, haf]

theorem pk_run_present (ctx : Ctx) (info : ClassInfo) (mc : ModelCls) (af : DField)
    (hm : ctx.get_model_class_by_fullname info.fullname = some mc)
    (haf : mc.auto_field = some af)
    (hr : hasReadableMember info af.attname = true) :
    addDefaultPrimaryKey_run ctx info = (info, false) := by
  simp [addDefaultPrimaryKey_run, hm, haf, hr]

theorem pk_run_error (ctx : Ctx) (info : ClassInfo) (mc : ModelCls) (af : DField)
    (hm : ctx.get_model_class_by_fullname info.fullname = some mc)
    (haf : mc.auto_field = some af)
    (hr : hasReadableMember info af.attname = false)
    (hl : lookup_typeinfo_or_incomplete_defn_error ctx af.cls_fullname = .error ()) :
    addDefaultPrimaryKey_run ctx info = (info, true) := by
  simp [addDefaultPrimaryKey_run, hm, haf, hr, hl]

theorem pk_run_inject (ctx : Ctx) (info : ClassInfo) (mc : ModelCls) (af : DField)
    (fi : String)
    (hm : ctx.get_model_class_by_fullname info.fullname = some mc)
    (haf : mc.auto_field = some af)
    (hr : hasReadableMember info af.attname = false)
    (hl : lookup_typeinfo_or_incomplete_defn_error ctx af.cls_fullname = .ok fi) :
    addDefaultPrimaryKey_run ctx info =
      (add_new_node_to_model_class info af.attname
        (.instance fi [(ctx.get_field_descriptor_types fi false).1,
                       (ctx.get_field_descriptor_types fi false).2]), false) := by
  simp [addDefaultPrimaryKey_run, hm, haf, hr, hl]

theorem fk_run_none (ctx : Ctx) (info : ClassInfo)
    (hm : ctx.get_model_class_by_fullname info.fullname = none) :
    addRelatedModelsId_run ctx info = (info, false) := by
  simp [addRelatedModelsId_run, hm]

theorem fk_run_eq (ctx : Ctx) (info : ClassInfo) (mc : ModelCls)
    (hm : ctx.get_model_class_by_fullname info.fullname = some mc) :
    addRelatedModelsId_run ctx info =
      addRelatedModelsId_loop ctx mc.meta_fields info := by
  simp [addRelatedModelsId_run, hm]

theorem fkloop_cons_nonfk (ctx : Ctx) (f : DField) (rest : List DField)
    (info : ClassInfo) (h : f.is_foreign_key = false) :
    addRelatedModelsId_loop ctx (f :: rest) info =
      addRelatedModelsId_loop ctx rest info := by
  simp [addRelatedModelsId_loop, h]

theorem fkloop_cons_error (ctx : Ctx) (f : DField) (rest : List DField)
    (info : ClassInfo) (h : f.is_foreign_key = true)
    (hl : lookup_field_typeinfo_or_incomplete_defn_error ctx
      (ctx.get_primary_key_field f.related_model) = .error ()) :
    addRelatedModelsId_loop ctx (f :: rest) info = (info, true) := by
  simp [addRelatedModelsId_loop, h, hl]

theorem fkloop_cons_ok (ctx : Ctx) (f : DField) (rest : List DField)
    (info : ClassInfo) (fi : String) (h : f.is_foreign_key = true)
    (hl : lookup_field_typeinfo_or_incomplete_defn_error ctx
      (ctx.get_primary_key_field f.related_model) = .ok fi) :
    addRelatedModelsId_loop ctx (f :: rest) info =
      addRelatedModelsId_loop ctx rest
        (add_new_node_to_model_class info f.attname
          (.instance fi
            [(ctx.get_field_descriptor_types fi (ctx.get_field_nullability f)).1,
             (ctx.get_field_descriptor_types fi (ctx.get_field_nullability f)).2])) := by
  simp [addRelatedModelsId_loop, h, hl]

theorem mgrloop_cons_present (ctx : Ctx) (n : String) (m : DManager)
    (rest : List (String × DManager)) (info : ClassInfo)
    (h : (info.names.lookup n).isSome = true) :
    addManagers_loop ctx ((n, m) :: rest) info = addManagers_loop ctx rest info := by
  simp [addManagers_loop, h]

theorem mgrloop_cons_error (ctx : Ctx) (n : String) (m : DManager)
    (rest : List (String × DManager)) (info : ClassInfo)
    (h : (info.names.lookup n).isSome = false)
    (hl : lookup_typeinfo_or_incomplete_defn_error ctx m.cls_fullname = .error ()) :
    addManagers_loop ctx ((n, m) :: rest) info = (info, true) := by
  simp [addManagers_loop, h, hl]

theorem mgrloop_cons_ok (ctx : Ctx) (n : String) (m : DManager)
    (rest : List (String × DManager)) (info : ClassInfo) (mi : String)
    (h : (info.names.lookup n).isSome = false)
    (hl : lookup_typeinfo_or_incomplete_defn_error ctx m.cls_fullname = .ok mi) :
    addManagers_loop ctx ((n, m) :: rest) info =
      addManagers_loop ctx rest
        (add_new_node_to_model_class info n
          (.instance mi [.instance info.fullname []])) := by
  simp [addManagers_loop, h, hl]

theorem mgr_run_none (ctx : Ctx) (info : ClassInfo)
    (hm : ctx.get_model_class_by_fullname info.fullname = none) :
    addManagers_run ctx info = (info, false) := by
  simp [addManagers_run, hm]

theorem mgr_run_raise (ctx : Ctx) (info : ClassInfo) (mc : ModelCls) (M : ClassInfo)
    (hm : ctx.get_model_class_by_fullname info.fullname = some mc)
    (hloop : addManagers_loop ctx mc.managers_map info = (M, true)) :
    addManagers_run ctx info = (M, true) := by
  simp [addManagers_run, hm, hloop]

theorem mgr_run_present (ctx : Ctx) (info : ClassInfo) (mc : ModelCls) (M : ClassInfo)
    (hm : ctx.get_model_class_by_fullname info.fullname = some mc)
    (hloop : addManagers_loop ctx mc.managers_map info = (M, false))
    (hdm : (M.names.lookup "_default_manager").isSome = true) :
    addManagers_run ctx info = (M, false) := by
  simp [addManagers_run, hm, hloop, hdm]

theorem mgr_run_error (ctx : Ctx) (info : ClassInfo) (mc : ModelCls) (M : ClassInfo)
    (hm : ctx.get_model_class_by_fullname info.fullname = some mc)
    (hloop : addManagers_loop ctx mc.managers_map info = (M, false))
    (hdm : (M.names.lookup "_default_manager").isSome = false)
    (hl : lookup_typeinfo_or_incomplete_defn_error ctx
      mc.default_manager.cls_fullname = .error ()) :
    addManagers_run ctx info = (M, true) := by
  simp [addManagers_run, hm, hloop, hdm, hl]

theorem mgr_run_inject (ctx : Ctx) (info : ClassInfo) (mc : ModelCls) (M : ClassInfo)
    (di : String)
    (hm : ctx.get_model_class_by_fullname info.fullname = some mc)
    (hloop : addManagers_loop ctx mc.managers_map info = (M, false))
    (hdm : (M.names.lookup "_default_manager").isSome = false)
    (hl : lookup_typeinfo_or_incomplete_defn_error ctx
      mc.default_manager.cls_fullname = .ok di) :
    addManagers_run ctx info =
      (add_new_node_to_model_class M "_default_manager"
        (.instance di [.instance M.fullname []]), false) := by
  simp [addManagers_run, hm, hloop, hdm, hl]

/-! ## Structural invariance of the initializer runs

Every initializer mutates only `info.names` (and the Meta-fallback
initializer only `info.meta`): `fullname` and `base_readable` are never
touched, and symbol-table keys are never removed. -/

/-- `add_new_node_to_model_class` changes only `names`. -/
theorem add_new_fullname (info : ClassInfo) (name : String) (typ : MypyType) :
    (add_new_node_to_model_class info name typ).fullname = info.fullname := rfl

theorem add_new_meta (info : ClassInfo) (name : String) (typ : MypyType) :
    (add_new_node_to_model_class info name typ).meta = info.meta := rfl

theorem add_new_base (info : ClassInfo) (name : String) (typ : MypyType) :
    (add_new_node_to_model_class info name typ).base_readable = info.base_readable := rfl

theorem add_new_lookup_self (info : ClassInfo) (name : String) (typ : MypyType) :
    (add_new_node_to_model_class info name typ).names.lookup name =
      some (mkVarSym info.fullname name typ) :=
  lookup_setk_self _ _ _

theorem add_new_lookup_ne (info : ClassInfo) (name k : String) (typ : MypyType)
    (h : k ≠ name) :
    (add_new_node_to_model_class info name typ).names.lookup k = info.names.lookup k :=
  lookup_setk_ne _ _ _ _ h

/-- Everything except `names` is preserved from `a` to `b`, and no
symbol-table key of `a` is lost in `b`. -/
def NamesGrowOnly (a b : ClassInfo) : Prop :=
  b.fullname = a.fullname ∧ b.meta = a.meta ∧ b.base_readable = a.base_readable ∧
    ∀ k, (a.names.lookup k).isSome = true → (b.names.lookup k).isSome = true

theorem namesGrowOnly_refl (a : ClassInfo) : NamesGrowOnly a a :=
  ⟨rfl, rfl, rfl, fun _ h => h⟩

theorem namesGrowOnly_trans {a b c : ClassInfo}
    (h1 : NamesGrowOnly a b) (h2 : NamesGrowOnly b c) : NamesGrowOnly a c :=
  ⟨h2.1.trans h1.1, h2.2.1.trans h1.2.1, h2.2.2.1.trans h1.2.2.1,
    fun k hk => h2.2.2.2 k (h1.2.2.2 k hk)⟩

theorem namesGrowOnly_add_new (info : ClassInfo) (name : String) (typ : MypyType) :
    NamesGrowOnly info (add_new_node_to_model_class info name typ) :=
  ⟨rfl, rfl, rfl, fun _ hk => isSome_lookup_setk _ _ _ _ hk⟩

theorem namesGrowOnly_fkloop (ctx : Ctx) (fields : List DField) (info : ClassInfo) :
    NamesGrowOnly info (addRelatedModelsId_loop ctx fields info).1 := by
  induction fields generalizing info with
  | nil => exact namesGrowOnly_refl info
  | cons field rest ih =>
      simp only [addRelatedModelsId_loop]
      split
      · split
        · exact namesGrowOnly_refl info
        · exact namesGrowOnly_trans (namesGrowOnly_add_new info _ _) (ih _)
      · exact ih info

theorem namesGrowOnly_mgrloop (ctx : Ctx) (managers : List (String × DManager))
    (info : ClassInfo) :
    NamesGrowOnly info (addManagers_loop ctx managers info).1 := by
  induction managers generalizing info with
  | nil => exact namesGrowOnly_refl info
  | cons hd rest ih =>
      obtain ⟨manager_name, manager⟩ := hd
      simp only [addManagers_loop]
      split
      · exact ih info
      · split
        · exact namesGrowOnly_refl info
        · exact namesGrowOnly_trans (namesGrowOnly_add_new info _ _) (ih _)

theorem namesGrowOnly_pk (ctx : Ctx) (info : ClassInfo) :
    NamesGrowOnly info (addDefaultPrimaryKey_run ctx info).1 := by
  simp only [addDefaultPrimaryKey_run]
  split
  · exact namesGrowOnly_refl info
  · split
    · exact namesGrowOnly_refl info
    · split
      · exact namesGrowOnly_refl info
      · split
        · exact namesGrowOnly_refl info
        · exact namesGrowOnly_add_new info _ _

theorem namesGrowOnly_fk (ctx : Ctx) (info : ClassInfo) :
    NamesGrowOnly info (addRelatedModelsId_run ctx info).1 := by
  simp only [addRelatedModelsId_run]
  split
  · exact namesGrowOnly_refl info
  · exact namesGrowOnly_fkloop ctx _ info

theorem namesGrowOnly_mgr (ctx : Ctx) (info : ClassInfo) :
    NamesGrowOnly info (addManagers_run ctx info).1 := by
  unfold addManagers_run
  cases hm : ctx.get_model_class_by_fullname info.fullname with
  | none => exact namesGrowOnly_refl info
  | some model_cls =>
      rcases hloop : addManagers_loop ctx model_cls.managers_map info with ⟨info1, raised⟩
      have h1 : NamesGrowOnly info info1 := by
        have := namesGrowOnly_mgrloop ctx model_cls.managers_map info
        rwa [hloop] at this
      cases raised with
      | true => simp only [hloop]; exact h1
      | false =>
          simp only [hloop]
          by_cases hdm : (info1.names.lookup "_default_manager").isSome = true
          · simp only [if_pos hdm]; exact h1
          · simp only [if_neg hdm]
            cases hl : lookup_typeinfo_or_incomplete_defn_error ctx
                model_cls.default_manager.cls_fullname with
            | error e => exact h1
            | ok default_manager_info =>
                exact namesGrowOnly_trans h1 (namesGrowOnly_add_new info1 _ _)

/-- The Meta-fallback run touches only `meta`: names, fullname and
base-readability are untouched (it never raises either). -/
theorem meta_run_preserves (ctx : Ctx) (info : ClassInfo) :
    (injectAnyAsBaseForNestedMeta_run ctx info).1.fullname = info.fullname ∧
    (injectAnyAsBaseForNestedMeta_run ctx info).1.names = info.names ∧
    (injectAnyAsBaseForNestedMeta_run ctx info).1.base_readable = info.base_readable ∧
    (injectAnyAsBaseForNestedMeta_run ctx info).2 = false := by
  simp only [injectAnyAsBaseForNestedMeta_run, get_nested_meta_node_for_current_class]
  split <;> exact ⟨rfl, rfl, rfl, rfl⟩

/-- The primary-key, foreign-key and manager runs never touch `meta`. -/
theorem namesGrowOnly_run (tag : InitTag) (ctx : Ctx) (info : ClassInfo)
    (h : tag ≠ .injectAnyAsBaseForNestedMeta) :
    NamesGrowOnly info (run_initializer tag ctx info).1 := by
  cases tag with
  | injectAnyAsBaseForNestedMeta => exact absurd rfl h
  | addDefaultPrimaryKey => exact namesGrowOnly_pk ctx info
  | addRelatedModelsId => exact namesGrowOnly_fk ctx info
  | addManagers => exact namesGrowOnly_mgr ctx info

/-! ## Preservation of pre-existing symbols by the guarded initializers -/

/-- The primary-key run leaves every present symbol untouched: its only
possible write is at a key that `hasReadableMember` reported absent. -/
theorem pk_preserves_some (ctx : Ctx) (info : ClassInfo) (k : String)
    (s : SymbolTableNode) (h : info.names.lookup k = some s) :
    (addDefaultPrimaryKey_run ctx info).1.names.lookup k = some s := by
  unfold addDefaultPrimaryKey_run
  split
  · exact h
  · split
    · exact h
    · split
      · exact h
      · split
        · exact h
        · rename_i osc auto_field haf hr esc auto_field_info hl
          have hne : k ≠ auto_field.attname := by
            intro hk
            apply hr
            unfold hasReadableMember
            rw [← hk, h]
            simp
          exact (add_new_lookup_ne info auto_field.attname k _ hne).trans h

/-- The manager loop leaves every present symbol untouched: each of its
writes is at a key its presence guard reported absent. -/
theorem mgrloop_preserves_some (ctx : Ctx) (managers : List (String × DManager))
    (info : ClassInfo) (k : String) (s : SymbolTableNode)
    (h : info.names.lookup k = some s) :
    (addManagers_loop ctx managers info).1.names.lookup k = some s := by
  induction managers generalizing info with
  | nil => exact h
  | cons hd rest ih =>
      obtain ⟨manager_name, manager⟩ := hd
      simp only [addManagers_loop]
      by_cases hg : (info.names.lookup manager_name).isSome = true
      · simp only [if_pos hg]; exact ih info h
      · simp only [if_neg hg]
        cases hl : lookup_typeinfo_or_incomplete_defn_error ctx manager.cls_fullname with
        | error e => exact h
        | ok manager_info =>
            have hne : k ≠ manager_name := by
              intro hk
              subst hk
              rw [h] at hg
              exact hg rfl
            apply ih
            rw [add_new_lookup_ne info manager_name k _ hne]
            exact h

/-- The manager run leaves every present symbol untouched. -/
theorem mgr_preserves_some (ctx : Ctx) (info : ClassInfo) (k : String)
    (s : SymbolTableNode) (h : info.names.lookup k = some s) :
    (addManagers_run ctx info).1.names.lookup k = some s := by
  unfold addManagers_run
  cases hm : ctx.get_model_class_by_fullname info.fullname with
  | none => exact h
  | some model_cls =>
      rcases hloop : addManagers_loop ctx model_cls.managers_map info with ⟨info1, raised⟩
      have h1 : info1.names.lookup k = some s := by
        have := mgrloop_preserves_some ctx model_cls.managers_map info k s h
        rwa [hloop] at this
      cases raised with
      | true => simp only [hloop]; exact h1
      | false =>
          simp only [hloop]
          by_cases hdm : (info1.names.lookup "_default_manager").isSome = true
          · simp only [if_pos hdm]; exact h1
          · simp only [if_neg hdm]
            cases hl : lookup_typeinfo_or_incomplete_defn_error ctx
                model_cls.default_manager.cls_fullname with
            | error e => exact h1
            | ok default_manager_info =>
                have hne : k ≠ "_default_manager" := by
                  intro hk
                  subst hk
                  rw [h1] at hdm
                  exact hdm rfl
                rw [add_new_lookup_ne info1 "_default_manager" k _ hne]
                exact h1

/-! ## The foreign-key loop's write discipline -/

theorem fkAttnames_cons (f : DField) (rest : List DField) :
    fkAttnames (f :: rest) =
      if f.is_foreign_key then f.attname :: fkAttnames rest else fkAttnames rest := by
  unfold fkAttnames
  rw [List.filter_cons]
  cases hf : f.is_foreign_key <;> simp [hf]

/-- Keys outside the foreign-key attribute names of the field list are
untouched by the foreign-key loop. -/
theorem fkloop_lookup_not_written (ctx : Ctx) (fields : List DField)
    (info : ClassInfo) (k : String) (h : k ∉ fkAttnames fields) :
    (addRelatedModelsId_loop ctx fields info).1.names.lookup k =
      info.names.lookup k := by
  induction fields generalizing info with
  | nil => rfl
  | cons field rest ih =>
      rw [fkAttnames_cons] at h
      simp only [addRelatedModelsId_loop]
      split
      · rename_i hf
        rw [if_pos hf] at h
        have hk1 : k ≠ field.attname := fun hk => h (hk ▸ List.mem_cons_self _ _)
        have hk2 : k ∉ fkAttnames rest := fun hk => h (List.mem_cons_of_mem _ hk)
        cases hl : lookup_field_typeinfo_or_incomplete_defn_error ctx
            (ctx.get_primary_key_field field.related_model) with
        | error e => rfl
        | ok field_info =>
            exact (ih _ hk2).trans (add_new_lookup_ne info field.attname k _ hk1)
      · rename_i hf
        rw [if_neg hf] at h
        exact ih info h

/-- After a foreign-key loop that did not raise, every foreign-key field
of the processed list (with pairwise distinct shadow-column names) has
its shadow symbol present, typed from its related model's resolved
primary-key field class and its own reported nullability. -/
theorem fkloop_spec (ctx : Ctx) (fields : List DField) (info : ClassInfo)
    (field : DField) (hmem : field ∈ fields) (hfk : field.is_foreign_key = true)
    (hnodup : (fkAttnames fields).Nodup)
    (hok : (addRelatedModelsId_loop ctx fields info).2 = false) :
    ∃ fi, lookup_field_typeinfo_or_incomplete_defn_error ctx
        (ctx.get_primary_key_field field.related_model) = .ok fi ∧
      (addRelatedModelsId_loop ctx fields info).1.names.lookup field.attname =
        some (mkVarSym info.fullname field.attname
          (.instance fi
            [(ctx.get_field_descriptor_types fi (ctx.get_field_nullability field)).1,
             (ctx.get_field_descriptor_types fi (ctx.get_field_nullability field)).2])) := by
  induction fields generalizing info with
  | nil => cases hmem
  | cons f0 rest ih =>
      rw [fkAttnames_cons] at hnodup
      simp only [addRelatedModelsId_loop] at hok ⊢
      split at hok
      · rename_i hf0
        rw [if_pos hf0] at hnodup ⊢
        cases hl : lookup_field_typeinfo_or_incomplete_defn_error ctx
            (ctx.get_primary_key_field f0.related_model) with
        | error e => rw [hl] at hok; simp at hok
        | ok fi0 =>
            rw [hl] at hok
            cases List.mem_cons.mp hmem with
            | inl he =>
                subst he
                refine ⟨fi0, hl, ?_⟩
                exact (fkloop_lookup_not_written ctx rest _ field.attname
                    (List.nodup_cons.mp hnodup).1).trans
                  (add_new_lookup_self info field.attname _)
            | inr hr =>
                exact ih _ hr (List.nodup_cons.mp hnodup).2 hok
      · rename_i hf0
        rw [if_neg hf0] at hnodup ⊢
        have hmem' : field ∈ rest := by
          cases List.mem_cons.mp hmem with
          | inl he => subst he; exact absurd hfk hf0
          | inr hr => exact hr
        exact ih info hmem' hnodup hok

/-- C5: for a resolved model each foreign-key field `f` (with the
per-model uniqueness of shadow-column names every real reflection handle
guarantees), after a foreign-key-id run that completed without raising,
the class exposes `f.attname`, typed as an instance of the related
model's primary-key field's resolved class with get/set descriptor types
parameterized by the reflection handle's reported nullability for `f`. -/
theorem add_related_models_id_spec (ctx : Ctx) (info : ClassInfo) (mc : ModelCls)
    (field : DField)
    (hmc : ctx.get_model_class_by_fullname info.fullname = some mc)
    (hmem : field ∈ mc.meta_fields) (hfk : field.is_foreign_key = true)
    (hnodup : (fkAttnames mc.meta_fields).Nodup)
    (hok : (addRelatedModelsId_run ctx info).2 = false) :
    ∃ fi, lookup_field_typeinfo_or_incomplete_defn_error ctx
        (ctx.get_primary_key_field field.related_model) = .ok fi ∧
      (addRelatedModelsId_run ctx info).1.names.lookup field.attname =
        some (mkVarSym info.fullname field.attname
          (.instance fi
            [(ctx.get_field_descriptor_types fi (ctx.get_field_nullability field)).1,
             (ctx.get_field_descriptor_types fi (ctx.get_field_nullability field)).2])) := by
  unfold addRelatedModelsId_run at hok ⊢
  rw [hmc] at hok ⊢
  exact fkloop_spec ctx mc.meta_fields info field hmem hfk hnodup hok

/-- Witness for C5: `app.Book`'s `author_id` shadow column, nullable as
reported for the `author` foreign key. -/
theorem add_related_models_id_spec_witness :
    ∃ fi, lookup_field_typeinfo_or_incomplete_defn_error exCtx
        (exCtx.get_primary_key_field authorFK.related_model) = .ok fi ∧
      (addRelatedModelsId_run exCtx bookInfo).1.names.lookup authorFK.attname =
        some (mkVarSym bookInfo.fullname authorFK.attname
          (.instance fi
            [(exCtx.get_field_descriptor_types fi
                (exCtx.get_field_nullability authorFK)).1,
             (exCtx.get_field_descriptor_types fi
                (exCtx.get_field_nullability authorFK)).2])) :=
  add_related_models_id_spec exCtx bookInfo bookModel authorFK rfl
    (by decide) rfl (by decide) (by decide)

/-! ## The manager loop's write discipline -/

/-- Keys outside the manager map are untouched by the manager loop. -/
theorem mgrloop_lookup_not_key (ctx : Ctx) (managers : List (String × DManager))
    (info : ClassInfo) (k : String) (h : k ∉ managers.map Prod.fst) :
    (addManagers_loop ctx managers info).1.names.lookup k = info.names.lookup k := by
  induction managers generalizing info with
  | nil => rfl
  | cons hd rest ih =>
      obtain ⟨n0, m0⟩ := hd
      simp only [List.map_cons, List.mem_cons, not_or] at h
      simp only [addManagers_loop]
      by_cases hg : (info.names.lookup n0).isSome = true
      · simp only [if_pos hg]; exact ih info h.2
      · simp only [if_neg hg]
        cases hl : lookup_typeinfo_or_incomplete_defn_error ctx m0.cls_fullname with
        | error e => rfl
        | ok manager_info =>
            exact (ih _ h.2).trans (add_new_lookup_ne info n0 k _ h.1)

/-- After a manager loop that did not raise, every manager-map entry
whose name was absent when the loop started is present, typed as its
resolved manager class parameterized by the model class itself. -/
theorem mgrloop_spec (ctx : Ctx) (managers : List (String × DManager))
    (info : ClassInfo) (name : String) (mgr : DManager)
    (hmem : (name, mgr) ∈ managers)
    (hnodup : (managers.map Prod.fst).Nodup)
    (habsent : info.names.lookup name = none)
    (hok : (addManagers_loop ctx managers info).2 = false) :
    ∃ mi, lookup_typeinfo_or_incomplete_defn_error ctx mgr.cls_fullname = .ok mi ∧
      (addManagers_loop ctx managers info).1.names.lookup name =
        some (mkVarSym info.fullname name
          (.instance mi [.instance info.fullname []])) := by
  induction managers generalizing info with
  | nil => cases hmem
  | cons hd rest ih =>
      obtain ⟨n0, m0⟩ := hd
      simp only [List.map_cons, List.nodup_cons] at hnodup
      simp only [addManagers_loop] at hok ⊢
      cases List.mem_cons.mp hmem with
      | inl he =>
          obtain ⟨hn, hm⟩ := Prod.mk.injEq .. ▸ he
          subst hn
          subst hm
          have hg : ¬((info.names.lookup name).isSome = true) := by
            rw [habsent]; simp
          rw [if_neg hg] at hok ⊢
          cases hl : lookup_typeinfo_or_incomplete_defn_error ctx mgr.cls_fullname with
          | error e => rw [hl] at hok; simp at hok
          | ok mi =>
              refine ⟨mi, rfl, ?_⟩
              exact (mgrloop_lookup_not_key ctx rest _ name hnodup.1).trans
                (add_new_lookup_self info name _)
      | inr hr =>
          have hname_rest : name ∈ rest.map Prod.fst :=
            List.mem_map_of_mem Prod.fst hr
          have hne : name ≠ n0 := fun hk => hnodup.1 (hk ▸ hname_rest)
          by_cases hg : (info.names.lookup n0).isSome = true
          · rw [if_pos hg] at hok ⊢
            exact ih info hr hnodup.2 habsent hok
          · rw [if_neg hg] at hok ⊢
            cases hl : lookup_typeinfo_or_incomplete_defn_error ctx m0.cls_fullname with
            | error e => rw [hl] at hok; simp at hok
            | ok mi0 =>
                rw [hl] at hok
                exact ih _ hr hnodup.2
                  ((add_new_lookup_ne info n0 name _ hne).trans habsent) hok

/-- C6: for a resolved model whose manager map has distinct names not
including the reserved `_default_manager`, after a manager run that did
not raise: every manager name absent before the run is bound to its
resolved manager class parameterized by the model class, and if
`_default_manager` was absent it is now bound to the model's resolved
default-manager class parameterized by the model class. -/
theorem add_managers_spec (ctx : Ctx) (info : ClassInfo) (mc : ModelCls)
    (hmc : ctx.get_model_class_by_fullname info.fullname = some mc)
    (hnodup : (mc.managers_map.map Prod.fst).Nodup)
    (hdmkey : "_default_manager" ∉ mc.managers_map.map Prod.fst)
    (hok : (addManagers_run ctx info).2 = false) :
    (∀ name mgr, (name, mgr) ∈ mc.managers_map → info.names.lookup name = none →
      ∃ mi, lookup_typeinfo_or_incomplete_defn_error ctx mgr.cls_fullname = .ok mi ∧
        (addManagers_run ctx info).1.names.lookup name =
          some (mkVarSym info.fullname name
            (.instance mi [.instance info.fullname []]))) ∧
    (info.names.lookup "_default_manager" = none →
      ∃ di, lookup_typeinfo_or_incomplete_defn_error ctx
          mc.default_manager.cls_fullname = .ok di ∧
        (addManagers_run ctx info).1.names.lookup "_default_manager" =
          some (mkVarSym info.fullname "_default_manager"
            (.instance di [.instance info.fullname []]))) := by
  unfold addManagers_run at hok ⊢
  simp only [hmc] at hok ⊢
  obtain ⟨info1, raised, hloop⟩ :
      ∃ i r, addManagers_loop ctx mc.managers_map info = (i, r) := ⟨_, _, rfl⟩
  have hfn : info1.fullname = info.fullname := by
    have := (namesGrowOnly_mgrloop ctx mc.managers_map info).1
    rwa [hloop] at this
  cases raised with
  | true => rw [hloop] at hok; simp at hok
  | false =>
      have hloop_ok : (addManagers_loop ctx mc.managers_map info).2 = false := by
        rw [hloop]
      simp only [hloop] at hok ⊢
      by_cases hdm : (info1.names.lookup "_default_manager").isSome = true
      · rw [if_pos hdm] at hok ⊢
        constructor
        · intro name mgr hmem habsent
          obtain ⟨mi, hmi, hlook⟩ :=
            mgrloop_spec ctx mc.managers_map info name mgr hmem hnodup habsent hloop_ok
          rw [hloop] at hlook
          exact ⟨mi, hmi, hlook⟩
        · intro habsent
          exfalso
          have := mgrloop_lookup_not_key ctx mc.managers_map info "_default_manager" hdmkey
          rw [hloop, habsent] at this
          rw [this] at hdm
          simp at hdm
      · rw [if_neg hdm] at hok ⊢
        cases hl : lookup_typeinfo_or_incomplete_defn_error ctx
            mc.default_manager.cls_fullname with
        | error e => rw [hl] at hok; simp at hok
        | ok di =>
            constructor
            · intro name mgr hmem habsent
              obtain ⟨mi, hmi, hlook⟩ :=
                mgrloop_spec ctx mc.managers_map info name mgr hmem hnodup habsent hloop_ok
              rw [hloop] at hlook
              have hname : name ∈ mc.managers_map.map Prod.fst :=
                List.mem_map_of_mem Prod.fst hmem
              have hne : name ≠ "_default_manager" := fun hk => hdmkey (hk ▸ hname)
              exact ⟨mi, hmi,
                (add_new_lookup_ne info1 "_default_manager" name _ hne).trans hlook⟩
            · intro habsent
              refine ⟨di, rfl, ?_⟩
              rw [← hfn]
              exact add_new_lookup_self info1 "_default_manager" _

/-- Witness for C6: `app.Book` gains `objects : Manager[Book]` and
`_default_manager : Manager[Book]`. -/
theorem add_managers_spec_witness :
    (∃ mi, lookup_typeinfo_or_incomplete_defn_error exCtx objManager.cls_fullname = .ok mi ∧
      (addManagers_run exCtx bookInfo).1.names.lookup "objects" =
        some (mkVarSym bookInfo.fullname "objects"
          (.instance mi [.instance bookInfo.fullname []]))) ∧
    (∃ di, lookup_typeinfo_or_incomplete_defn_error exCtx
        bookModel.default_manager.cls_fullname = .ok di ∧
      (addManagers_run exCtx bookInfo).1.names.lookup "_default_manager" =
        some (mkVarSym bookInfo.fullname "_default_manager"
          (.instance di [.instance bookInfo.fullname []]))) :=
  let h := add_managers_spec exCtx bookInfo bookModel rfl (by decide) (by decide)
    (by decide)
  ⟨h.1 "objects" objManager (by decide) rfl, h.2 rfl⟩

/-! ## Replay lemmas: a second pass over an already-processed state -/

theorem fkAttnames_cons_fk (f : DField) (rest : List DField)
    (h : f.is_foreign_key = true) :
    fkAttnames (f :: rest) = f.attname :: fkAttnames rest := by
  simp [fkAttnames, List.filter_cons, h]

theorem fkAttnames_cons_nonfk (f : DField) (rest : List DField)
    (h : f.is_foreign_key = false) :
    fkAttnames (f :: rest) = fkAttnames rest := by
  simp [fkAttnames, List.filter_cons, h]

theorem fkWritten_cons_nonfk (ctx : Ctx) (f : DField) (rest : List DField)
    (h : f.is_foreign_key = false) :
    fkWritten ctx (f :: rest) = fkWritten ctx rest := by
  simp [fkWritten, h]

theorem fkWritten_cons_error (ctx : Ctx) (f : DField) (rest : List DField)
    (h : f.is_foreign_key = true)
    (hl : lookup_field_typeinfo_or_incomplete_defn_error ctx
      (ctx.get_primary_key_field f.related_model) = .error ()) :
    fkWritten ctx (f :: rest) = [] := by
  simp [fkWritten, h, hl]

theorem fkWritten_cons_ok (ctx : Ctx) (f : DField) (rest : List DField) (fi : String)
    (h : f.is_foreign_key = true)
    (hl : lookup_field_typeinfo_or_incomplete_defn_error ctx
      (ctx.get_primary_key_field f.related_model) = .ok fi) :
    fkWritten ctx (f :: rest) = f :: fkWritten ctx rest := by
  simp [fkWritten, h, hl]

/-- Re-installing the exact symbol a key already holds is a no-op. -/
theorem add_new_eq_self (info : ClassInfo) (name : String) (typ : MypyType)
    (h : info.names.lookup name = some (mkVarSym info.fullname name typ)) :
    add_new_node_to_model_class info name typ = info := by
  obtain ⟨fn, names, meta, base⟩ := info
  show ClassInfo.mk fn (setk names name (mkVarSym fn name typ)) meta base =
    ClassInfo.mk fn names meta base
  rw [setk_eq_of_lookup names name (mkVarSym fn name typ) h]

/-- Replaying the foreign-key loop on a state that already holds every
symbol the loop would write leaves the state unchanged (raising at the
same point it raised before, if it raised). -/
theorem fkloop_replay (ctx : Ctx) (fields : List DField) (info : ClassInfo)
    (hfix : ∀ field ∈ fkWritten ctx fields, ∀ fi,
      lookup_field_typeinfo_or_incomplete_defn_error ctx
        (ctx.get_primary_key_field field.related_model) = .ok fi →
      info.names.lookup field.attname =
        some (mkVarSym info.fullname field.attname
          (.instance fi
            [(ctx.get_field_descriptor_types fi (ctx.get_field_nullability field)).1,
             (ctx.get_field_descriptor_types fi (ctx.get_field_nullability field)).2]))) :
    (addRelatedModelsId_loop ctx fields info).1 = info := by
  induction fields generalizing info with
  | nil => rfl
  | cons f rest ih =>
      cases hf : f.is_foreign_key with
      | false =>
          rw [fkloop_cons_nonfk ctx f rest info hf]
          apply ih
          intro field hfw fi hfi
          exact hfix field (by rw [fkWritten_cons_nonfk ctx f rest hf]; exact hfw) fi hfi
      | true =>
          cases hl : lookup_field_typeinfo_or_incomplete_defn_error ctx
              (ctx.get_primary_key_field f.related_model) with
          | error e =>
              cases e
              rw [fkloop_cons_error ctx f rest info hf hl]
          | ok fi0 =>
              have hv := hfix f
                (by rw [fkWritten_cons_ok ctx f rest fi0 hf hl]
                    exact List.mem_cons_self _ _) fi0 hl
              rw [fkloop_cons_ok ctx f rest info fi0 hf hl,
                add_new_eq_self info f.attname _ hv]
              apply ih
              intro field hfw fi hfi
              exact hfix field
                (by rw [fkWritten_cons_ok ctx f rest fi0 hf hl]
                    exact List.mem_cons_of_mem _ hfw) fi hfi

/-- After one foreign-key loop pass, every field it wrote (under
per-model distinctness of shadow-column names) holds exactly the symbol
the loop computes for it. -/
theorem fkloop_establish (ctx : Ctx) (fields : List DField) (info : ClassInfo)
    (hnd : (fkAttnames fields).Nodup) (field : DField)
    (hfw : field ∈ fkWritten ctx fields) (fi : String)
    (hfi : lookup_field_typeinfo_or_incomplete_defn_error ctx
      (ctx.get_primary_key_field field.related_model) = .ok fi) :
    (addRelatedModelsId_loop ctx fields info).1.names.lookup field.attname =
      some (mkVarSym info.fullname field.attname
        (.instance fi
          [(ctx.get_field_descriptor_types fi (ctx.get_field_nullability field)).1,
           (ctx.get_field_descriptor_types fi (ctx.get_field_nullability field)).2])) := by
  induction fields generalizing info with
  | nil => cases hfw
  | cons f rest ih =>
      cases hf : f.is_foreign_key with
      | false =>
          rw [fkWritten_cons_nonfk ctx f rest hf] at hfw
          rw [fkAttnames_cons_nonfk f rest hf] at hnd
          rw [fkloop_cons_nonfk ctx f rest info hf]
          exact ih info hnd hfw
      | true =>
          cases hl : lookup_field_typeinfo_or_incomplete_defn_error ctx
              (ctx.get_primary_key_field f.related_model) with
          | error e =>
              cases e
              rw [fkWritten_cons_error ctx f rest hf hl] at hfw
              cases hfw
          | ok fi0 =>
              rw [fkWritten_cons_ok ctx f rest fi0 hf hl] at hfw
              rw [fkAttnames_cons_fk f rest hf] at hnd
              rw [fkloop_cons_ok ctx f rest info fi0 hf hl]
              cases List.mem_cons.mp hfw with
              | inl he =>
                  subst he
                  have hfieq : fi0 = fi := Except.ok.inj (hl.symm.trans hfi)
                  subst hfieq
                  exact (fkloop_lookup_not_written ctx rest _ field.attname
                      (List.nodup_cons.mp hnd).1).trans
                    (add_new_lookup_self info field.attname _)
              | inr hr =>
                  exact ih _ (List.nodup_cons.mp hnd).2 hr

/-- A state holding every manager-map name makes the manager loop a
no-raise no-op. -/
theorem mgr_loop_skips (ctx : Ctx) (managers : List (String × DManager))
    (S : ClassInfo)
    (h : ∀ p ∈ managers, ((S.names.lookup p.1).isSome = true)) :
    addManagers_loop ctx managers S = (S, false) := by
  induction managers with
  | nil => rfl
  | cons hd rest ih =>
      obtain ⟨n0, m0⟩ := hd
      rw [mgrloop_cons_present ctx n0 m0 rest S (h (n0, m0) (List.mem_cons_self _ _))]
      exact ih (fun p hp => h p (List.mem_cons_of_mem _ hp))

/-- A manager loop that did not raise leaves every manager-map name
present. -/
theorem mgrloop_ensures_present (ctx : Ctx) (managers : List (String × DManager))
    (info : ClassInfo) (hok : (addManagers_loop ctx managers info).2 = false) :
    ∀ p ∈ managers,
      (((addManagers_loop ctx managers info).1).names.lookup p.1).isSome = true := by
  induction managers generalizing info with
  | nil => intro p hp; cases hp
  | cons hd rest ih =>
      obtain ⟨n0, m0⟩ := hd
      by_cases hg : (info.names.lookup n0).isSome = true
      · rw [mgrloop_cons_present ctx n0 m0 rest info hg] at hok ⊢
        intro p hp
        cases List.mem_cons.mp hp with
        | inl he =>
            subst he
            exact (namesGrowOnly_mgrloop ctx rest info).2.2.2 n0 hg
        | inr hr => exact ih info hok p hr
      · have hg' : (info.names.lookup n0).isSome = false := by
          simp only [Bool.not_eq_true] at hg
          exact hg
        cases hl : lookup_typeinfo_or_incomplete_defn_error ctx m0.cls_fullname with
        | error e =>
            cases e
            rw [mgrloop_cons_error ctx n0 m0 rest info hg' hl] at hok
            simp at hok
        | ok mi =>
            rw [mgrloop_cons_ok ctx n0 m0 rest info mi hg' hl] at hok ⊢
            intro p hp
            cases List.mem_cons.mp hp with
            | inl he =>
                subst he
                apply (namesGrowOnly_mgrloop ctx rest _).2.2.2 n0
                rw [add_new_lookup_self]
                rfl
            | inr hr => exact ih _ hok p hr

/-- Replaying the manager loop on the output of a pass that raised
raises at the same manager and changes nothing. -/
theorem mgr_replay_after_raise (ctx : Ctx) (managers : List (String × DManager))
    (info : ClassInfo) (h : (addManagers_loop ctx managers info).2 = true) :
    addManagers_loop ctx managers ((addManagers_loop ctx managers info).1) =
      ((addManagers_loop ctx managers info).1, true) := by
  induction managers generalizing info with
  | nil => simp [addManagers_loop] at h
  | cons hd rest ih =>
      obtain ⟨n0, m0⟩ := hd
      by_cases hg : (info.names.lookup n0).isSome = true
      · rw [mgrloop_cons_present ctx n0 m0 rest info hg] at h ⊢
        rw [mgrloop_cons_present ctx n0 m0 rest _
          ((namesGrowOnly_mgrloop ctx rest info).2.2.2 n0 hg)]
        exact ih info h
      · have hg' : (info.names.lookup n0).isSome = false := by
          simp only [Bool.not_eq_true] at hg
          exact hg
        cases hl : lookup_typeinfo_or_incomplete_defn_error ctx m0.cls_fullname with
        | error e =>
            cases e
            rw [mgrloop_cons_error ctx n0 m0 rest info hg' hl] at h ⊢
            show addManagers_loop ctx ((n0, m0) :: rest) info = (info, true)
            exact mgrloop_cons_error ctx n0 m0 rest info hg' hl
        | ok mi =>
            rw [mgrloop_cons_ok ctx n0 m0 rest info mi hg' hl] at h ⊢
            rw [mgrloop_cons_present ctx n0 m0 rest _
              ((namesGrowOnly_mgrloop ctx rest _).2.2.2 n0
                (by rw [add_new_lookup_self]; rfl))]
            exact ih _ h

/-! ## Stability of each initializer on the orchestrator's final state -/

/-- The Meta-fallback run fixes any state whose flag is already set (or
that has no nested `Meta`). -/
theorem meta_stable (ctx : Ctx) (B : ClassInfo)
    (h : B.meta = none ∨ B.meta = some { fallback_to_any := true }) :
    injectAnyAsBaseForNestedMeta_run ctx B = (B, false) := by
  cases h with
  | inl h => exact meta_run_none ctx B h
  | inr h =>
      rw [meta_run_some ctx B _ h, ← h]

/-- The primary-key run fixes any state `B` that extends both the state
`A` it originally ran on and its own output on `A` (same fullname and
base classes, no key lost). -/
theorem pk_stable (ctx : Ctx) (A B : ClassInfo)
    (hfn : B.fullname = A.fullname)
    (hbase : B.base_readable = A.base_readable)
    (hmonoA : ∀ k, (A.names.lookup k).isSome = true →
      (B.names.lookup k).isSome = true)
    (hmonoPK : ∀ k,
      ((addDefaultPrimaryKey_run ctx A).1.names.lookup k).isSome = true →
      (B.names.lookup k).isSome = true) :
    (addDefaultPrimaryKey_run ctx B).1 = B := by
  cases hm : ctx.get_model_class_by_fullname B.fullname with
  | none => rw [pk_run_none ctx B hm]
  | some mc =>
      cases haf : mc.auto_field with
      | none => rw [pk_run_noauto ctx B mc hm haf]
      | some af =>
          by_cases hr : hasReadableMember B af.attname = true
          · rw [pk_run_present ctx B mc af hm haf hr]
          · have hr' : hasReadableMember B af.attname = false := by
              simp only [Bool.not_eq_true] at hr
              exact hr
            cases hl : lookup_typeinfo_or_incomplete_defn_error ctx
                af.cls_fullname with
            | error e =>
                cases e
                rw [pk_run_error ctx B mc af hm haf hr' hl]
            | ok fi =>
                exfalso
                have hB2 : (B.names.lookup af.attname).isSome = false ∧
                    B.base_readable.contains af.attname = false := by
                  simpa [hasReadableMember] using hr'
                have hmA : ctx.get_model_class_by_fullname A.fullname = some mc := by
                  rw [← hfn]; exact hm
                by_cases hrA : hasReadableMember A af.attname = true
                · have hcA : A.base_readable.contains af.attname = false := by
                    rw [← hbase]; exact hB2.2
                  have hsA : (A.names.lookup af.attname).isSome = true := by
                    have hor := hrA
                    simp only [hasReadableMember, Bool.or_eq_true] at hor
                    rcases hor with h | h
                    · exact h
                    · rw [hcA] at h; cases h
                  have := hmonoA af.attname hsA
                  rw [hB2.1] at this
                  cases this
                · have hrA' : hasReadableMember A af.attname = false := by
                    simp only [Bool.not_eq_true] at hrA
                    exact hrA
                  have hrun := pk_run_inject ctx A mc af fi hmA haf hrA' hl
                  have hsPK :
                      ((addDefaultPrimaryKey_run ctx A).1.names.lookup
                        af.attname).isSome = true := by
                    rw [hrun]
                    show ((add_new_node_to_model_class A af.attname
                      _).names.lookup af.attname).isSome = true
                    rw [add_new_lookup_self]
                    rfl
                  have := hmonoPK af.attname hsPK
                  rw [hB2.1] at this
                  cases this

/-- The foreign-key run fixes any state `B` that holds everything the
loop wrote when it ran on `A` (with per-model distinct shadow names). -/
theorem fk_stable (ctx : Ctx) (A B : ClassInfo) (mc : ModelCls)
    (hfn : B.fullname = A.fullname)
    (hm : ctx.get_model_class_by_fullname B.fullname = some mc)
    (hnd : (fkAttnames mc.meta_fields).Nodup)
    (hpres : ∀ k s,
      (addRelatedModelsId_loop ctx mc.meta_fields A).1.names.lookup k = some s →
      B.names.lookup k = some s) :
    (addRelatedModelsId_run ctx B).1 = B := by
  rw [fk_run_eq ctx B mc hm]
  apply fkloop_replay
  intro field hfw fi hfi
  have h1 := fkloop_establish ctx mc.meta_fields A hnd field hfw fi hfi
  have h2 := hpres _ _ h1
  rw [hfn]
  exact h2

/-- The manager run fixes its own output. -/
theorem mgr_stable (ctx : Ctx) (A : ClassInfo) (mc : ModelCls)
    (hmA : ctx.get_model_class_by_fullname A.fullname = some mc) :
    (addManagers_run ctx ((addManagers_run ctx A).1)).1 =
      (addManagers_run ctx A).1 := by
  obtain ⟨M, r1, hloop⟩ :
      ∃ i r, addManagers_loop ctx mc.managers_map A = (i, r) := ⟨_, _, rfl⟩
  have hMfn : M.fullname = A.fullname := by
    have := (namesGrowOnly_mgrloop ctx mc.managers_map A).1
    rwa [hloop] at this
  have hmM : ctx.get_model_class_by_fullname M.fullname = some mc := by
    rw [hMfn]; exact hmA
  cases r1 with
  | true =>
      rw [mgr_run_raise ctx A mc M hmA hloop]
      show (addManagers_run ctx M).1 = M
      have hloopM : addManagers_loop ctx mc.managers_map M = (M, true) := by
        have := mgr_replay_after_raise ctx mc.managers_map A (by rw [hloop])
        rwa [hloop] at this
      rw [mgr_run_raise ctx M mc M hmM hloopM]
  | false =>
      have hall : ∀ p ∈ mc.managers_map, ((M.names.lookup p.1).isSome = true) := by
        intro p hp
        have := mgrloop_ensures_present ctx mc.managers_map A (by rw [hloop]) p hp
        rwa [hloop] at this
      by_cases hdm : (M.names.lookup "_default_manager").isSome = true
      · rw [mgr_run_present ctx A mc M hmA hloop hdm]
        show (addManagers_run ctx M).1 = M
        rw [mgr_run_present ctx M mc M hmM
          (mgr_loop_skips ctx mc.managers_map M hall) hdm]
      · have hdm' : (M.names.lookup "_default_manager").isSome = false := by
          simp only [Bool.not_eq_true] at hdm
          exact hdm
        cases hl : lookup_typeinfo_or_incomplete_defn_error ctx
            mc.default_manager.cls_fullname with
        | error e =>
            cases e
            rw [mgr_run_error ctx A mc M hmA hloop hdm' hl]
            show (addManagers_run ctx M).1 = M
            rw [mgr_run_error ctx M mc M hmM
              (mgr_loop_skips ctx mc.managers_map M hall) hdm' hl]
        | ok di =>
            rw [mgr_run_inject ctx A mc M di hmA hloop hdm' hl]
            show (addManagers_run ctx (add_new_node_to_model_class M
                "_default_manager"
                (.instance di [.instance M.fullname []]))).1 =
              add_new_node_to_model_class M "_default_manager"
                (.instance di [.instance M.fullname []])
            generalize hB : add_new_node_to_model_class M "_default_manager"
              (MypyType.instance di [MypyType.instance M.fullname []]) = B
            have hmB : ctx.get_model_class_by_fullname B.fullname = some mc := by
              rw [← hB]; exact hmM
            have hallB : ∀ p ∈ mc.managers_map,
                ((B.names.lookup p.1).isSome = true) := by
              intro p hp
              rw [← hB]
              exact (namesGrowOnly_add_new M _ _).2.2.2 p.1 (hall p hp)
            have hdmB : (B.names.lookup "_default_manager").isSome = true := by
              rw [← hB, add_new_lookup_self]
              rfl
            rw [mgr_run_present ctx B mc B hmB
              (mgr_loop_skips ctx mc.managers_map B hallB) hdmB]

/-- Auxiliary invariant for the orchestrator loop: the deferral count is
zero on the final iteration, and otherwise equals the number of caught
`IncompleteDefnException`s. -/
theorem process_fold_defer (ctx : Ctx) (tags : List InitTag) (st : OrchState)
    (h : st.defer_calls = cond ctx.final_iteration 0 st.raises) :
    (tags.foldl (process_initializer ctx) st).defer_calls =
      cond ctx.final_iteration 0 (tags.foldl (process_initializer ctx) st).raises := by
  induction tags generalizing st with
  | nil => exact h
  | cons tag rest ih =>
      simp only [List.foldl_cons]
      apply ih
      simp only [process_initializer]
      cases hfin : ctx.final_iteration <;>
        cases hout : (run_initializer tag ctx st.info).2 <;>
          simp [hfin, hout, h, hfin ▸ h]

/-! ## Claim theorems -/

/-- C9: for a class definition with a nested `Meta` inner class, the
Meta-fallback run sets that node's `fallback_to_any` flag (touching
nothing else); for a class with no nested `Meta` it changes nothing and
does not raise. -/
theorem inject_any_as_base_for_nested_meta_spec (ctx : Ctx) (info : ClassInfo) :
    (∀ m : MetaInfo, info.meta = some m →
      injectAnyAsBaseForNestedMeta_run ctx info =
        ({ info with meta := some { fallback_to_any := true } }, false)) ∧
    (info.meta = none → injectAnyAsBaseForNestedMeta_run ctx info = (info, false)) := by
  constructor
  · intro m hm
    simp [injectAnyAsBaseForNestedMeta_run, get_nested_meta_node_for_current_class, hm]
  · intro hm
    simp [injectAnyAsBaseForNestedMeta_run, get_nested_meta_node_for_current_class, hm]

/-- Witness for C9 at the concrete `app.Book` fixture, whose nested
`Meta` starts with the flag unset. -/
theorem inject_any_as_base_for_nested_meta_spec_witness :
    injectAnyAsBaseForNestedMeta_run exCtx bookInfo =
      ({ bookInfo with meta := some { fallback_to_any := true } }, false) :=
  (inject_any_as_base_for_nested_meta_spec exCtx bookInfo).1
    { fallback_to_any := false } rfl

/-- C8: when the reflection handle resolves no runtime model class for
the class's fully qualified name, each of the primary-key, foreign-key-id
and manager runs returns without raising and without any mutation. -/
theorem unresolvable_model_skips_injectors (ctx : Ctx) (info : ClassInfo)
    (h : ctx.get_model_class_by_fullname info.fullname = none) :
    addDefaultPrimaryKey_run ctx info = (info, false) ∧
    addRelatedModelsId_run ctx info = (info, false) ∧
    addManagers_run ctx info = (info, false) := by
  refine ⟨?_, ?_, ?_⟩ <;>
    simp [addDefaultPrimaryKey_run, addRelatedModelsId_run, addManagers_run, h]

/-- Witness for C8 in an environment resolving no model at all. -/
theorem unresolvable_model_skips_injectors_witness :
    addDefaultPrimaryKey_run noModelCtx bookInfo = (bookInfo, false) ∧
    addRelatedModelsId_run noModelCtx bookInfo = (bookInfo, false) ∧
    addManagers_run noModelCtx bookInfo = (bookInfo, false) :=
  unresolvable_model_skips_injectors noModelCtx bookInfo rfl

/-- C4: when the model resolves and has an auto-generated primary-key
field whose attribute name is not already a readable member, and the
field class's `TypeInfo` resolves, the primary-key run injects exactly
one member under that attribute name, typed as an instance of the
resolved node with descriptor types computed non-nullable; when the
member is already readable, or there is no auto field, the run changes
nothing and does not raise. -/
theorem add_default_primary_key_spec (ctx : Ctx) (info : ClassInfo) (mc : ModelCls)
    (hmc : ctx.get_model_class_by_fullname info.fullname = some mc) :
    (∀ af fi, mc.auto_field = some af →
      hasReadableMember info af.attname = false →
      lookup_typeinfo_or_incomplete_defn_error ctx af.cls_fullname = .ok fi →
      addDefaultPrimaryKey_run ctx info =
        (add_new_node_to_model_class info af.attname
          (.instance fi [(ctx.get_field_descriptor_types fi false).1,
                         (ctx.get_field_descriptor_types fi false).2]), false) ∧
      (addDefaultPrimaryKey_run ctx info).1.names.lookup af.attname =
        some (mkVarSym info.fullname af.attname
          (.instance fi [(ctx.get_field_descriptor_types fi false).1,
                         (ctx.get_field_descriptor_types fi false).2]))) ∧
    (∀ af, mc.auto_field = some af → hasReadableMember info af.attname = true →
      addDefaultPrimaryKey_run ctx info = (info, false)) ∧
    (mc.auto_field = none → addDefaultPrimaryKey_run ctx info = (info, false)) := by
  refine ⟨?_, ?_, ?_⟩
  · intro af fi haf hread hlook
    have hrun : addDefaultPrimaryKey_run ctx info =
        (add_new_node_to_model_class info af.attname
          (.instance fi [(ctx.get_field_descriptor_types fi false).1,
                         (ctx.get_field_descriptor_types fi false).2]), false) := by
      simp [addDefaultPrimaryKey_run, hmc, haf, hread, hlook]
    refine ⟨hrun, ?_⟩
    rw [hrun]
    exact add_new_lookup_self info af.attname _
  · intro af haf hread
    simp [addDefaultPrimaryKey_run, hmc, haf, hread]
  · intro haf
    simp [addDefaultPrimaryKey_run, hmc, haf]

/-- Witness for C4: `app.Book` gains a synthetic non-nullable `id`. -/
theorem add_default_primary_key_spec_witness :
    (addDefaultPrimaryKey_run exCtx bookInfo).1.names.lookup "id" =
      some (mkVarSym "app.Book" "id"
        (.instance "django.db.models.AutoField"
          [.instance "django.db.models.AutoField" [], .otherType 0])) :=
  ((add_default_primary_key_spec exCtx bookInfo bookModel rfl).1
    idField "django.db.models.AutoField" rfl (by decide) rfl).2

/-- C1 counterexample: the foreign-key-id initializer overwrites the
user-declared symbol `author_id` on `app.Book` with a plugin-generated
one, so the claimed invariant fails for `AddRelatedModelsId`. -/
theorem fk_injector_overwrites_user_symbol :
    bookInfo.names.lookup "author_id" = some userSym ∧
    (addRelatedModelsId_run exCtx bookInfo).1.names.lookup "author_id" ≠ some userSym := by
  constructor
  · rfl
  · decide

/-- C1 (amended): the Meta-fallback, primary-key and manager initializer
runs never overwrite an existing symbol of the same name; only the
foreign-key-id initializer (which has no presence guard) may do so. -/
theorem guarded_initializers_preserve_existing_symbols (ctx : Ctx)
    (info : ClassInfo) (name : String) (s : SymbolTableNode)
    (h : info.names.lookup name = some s) :
    (injectAnyAsBaseForNestedMeta_run ctx info).1.names.lookup name = some s ∧
    (addDefaultPrimaryKey_run ctx info).1.names.lookup name = some s ∧
    (addManagers_run ctx info).1.names.lookup name = some s := by
  refine ⟨?_, ?_, ?_⟩
  · rw [(meta_run_preserves ctx info).2.1]
    exact h
  · exact pk_preserves_some ctx info name s h
  · exact mgr_preserves_some ctx info name s h

/-- Witness for the amended C1: the user-declared `author_id` symbol
survives the three guarded initializers on `app.Book`. -/
theorem guarded_initializers_preserve_existing_symbols_witness :
    (injectAnyAsBaseForNestedMeta_run exCtx bookInfo).1.names.lookup "author_id" =
      some userSym ∧
    (addDefaultPrimaryKey_run exCtx bookInfo).1.names.lookup "author_id" =
      some userSym ∧
    (addManagers_run exCtx bookInfo).1.names.lookup "author_id" = some userSym :=
  guarded_initializers_preserve_existing_symbols exCtx bookInfo "author_id"
    userSym rfl

/-- C2: the orchestrator always returns (the incomplete-definition signal
never escapes it), requests zero deferrals on the checker's final
iteration, and otherwise requests exactly one deferral per caught
signal — in particular a deferral is requested iff a signal was caught
and the iteration is not final. -/
theorem orchestrator_defers_iff_not_final (ctx : Ctx) (info : ClassInfo) :
    (process_model_class ctx info).defer_calls =
      cond ctx.final_iteration 0 (process_model_class ctx info).raises :=
  process_fold_defer ctx initializers _ (by cases ctx.final_iteration <;> rfl)

/-- C7: every orchestrator invocation constructs and runs exactly the
four initializers, in the fixed order Meta-fallback, primary-key,
foreign-key-id, managers. -/
theorem orchestrator_runs_fixed_initializer_list (ctx : Ctx) (info : ClassInfo) :
    (process_model_class ctx info).ran =
      [InitTag.injectAnyAsBaseForNestedMeta, InitTag.addDefaultPrimaryKey,
       InitTag.addRelatedModelsId, InitTag.addManagers] ∧
    (process_model_class ctx info).ran.length = 4 :=
  ⟨rfl, rfl⟩

/-- C10: an incomplete-definition signal raised by the foreign-key-id
initializer does not abort the pass: the signal is counted as caught, the
manager initializer still runs in the same invocation, and the final
class state is the manager run applied to the foreign-key run's
(possibly partial) output. -/
theorem incomplete_signal_does_not_abort_pass (ctx : Ctx) (info : ClassInfo)
    (h : (addRelatedModelsId_run ctx
      (addDefaultPrimaryKey_run ctx
        (injectAnyAsBaseForNestedMeta_run ctx info).1).1).2 = true) :
    (process_model_class ctx info).ran =
      [InitTag.injectAnyAsBaseForNestedMeta, InitTag.addDefaultPrimaryKey,
       InitTag.addRelatedModelsId, InitTag.addManagers] ∧
    (process_model_class ctx info).info =
      (addManagers_run ctx (addRelatedModelsId_run ctx
        (addDefaultPrimaryKey_run ctx
          (injectAnyAsBaseForNestedMeta_run ctx info).1).1).1).1 ∧
    1 ≤ (process_model_class ctx info).raises := by
  refine ⟨rfl, rfl, ?_⟩
  simp only [process_model_class, initializers, List.foldl, process_initializer,
    run_initializer]
  simp [h]
  omega

/-- Witness for C10: with `AutoField` not yet resolvable, the
foreign-key run raises on `app.Book`, yet the manager injection still
lands in the same invocation. -/
theorem incomplete_signal_does_not_abort_pass_witness :
    (process_model_class deferCtx bookInfo).ran =
      [InitTag.injectAnyAsBaseForNestedMeta, InitTag.addDefaultPrimaryKey,
       InitTag.addRelatedModelsId, InitTag.addManagers] ∧
    (process_model_class deferCtx bookInfo).info =
      (addManagers_run deferCtx (addRelatedModelsId_run deferCtx
        (addDefaultPrimaryKey_run deferCtx
          (injectAnyAsBaseForNestedMeta_run deferCtx bookInfo).1).1).1).1 ∧
    1 ≤ (process_model_class deferCtx bookInfo).raises :=
  incomplete_signal_does_not_abort_pass deferCtx bookInfo (by decide)


/-- C3: running the orchestrator a second time on the class state a
first invocation produced changes nothing: the guarded injectors are
true no-ops there, and the unguarded foreign-key injector overwrites
each shadow symbol with the identical value (stated under the per-model
uniqueness of foreign-key shadow-column names every real reflection
handle guarantees). -/
theorem process_model_class_idempotent (ctx : Ctx) (info : ClassInfo)
    (hd : FkAttnamesDistinct ctx info.fullname) :
    (process_model_class ctx (process_model_class ctx info).info).info =
      (process_model_class ctx info).info := by
  obtain ⟨i1, hi1⟩ : ∃ i, (injectAnyAsBaseForNestedMeta_run ctx info).1 = i := ⟨_, rfl⟩
  obtain ⟨i2, hi2⟩ : ∃ i, (addDefaultPrimaryKey_run ctx i1).1 = i := ⟨_, rfl⟩
  obtain ⟨i3, hi3⟩ : ∃ i, (addRelatedModelsId_run ctx i2).1 = i := ⟨_, rfl⟩
  obtain ⟨T, hT⟩ : ∃ i, (addManagers_run ctx i3).1 = i := ⟨_, rfl⟩
  have hproc : (process_model_class ctx info).info = T := by
    show (addManagers_run ctx (addRelatedModelsId_run ctx
      (addDefaultPrimaryKey_run ctx
        (injectAnyAsBaseForNestedMeta_run ctx info).1).1).1).1 = T
    rw [hi1, hi2, hi3, hT]
  have g12 : NamesGrowOnly i1 i2 := by rw [← hi2]; exact namesGrowOnly_pk ctx i1
  have g23 : NamesGrowOnly i2 i3 := by rw [← hi3]; exact namesGrowOnly_fk ctx i2
  have g3T : NamesGrowOnly i3 T := by rw [← hT]; exact namesGrowOnly_mgr ctx i3
  have g2T : NamesGrowOnly i2 T := namesGrowOnly_trans g23 g3T
  have g1T : NamesGrowOnly i1 T := namesGrowOnly_trans g12 g2T
  have m1 := meta_run_preserves ctx info
  have h1fn : i1.fullname = info.fullname := by rw [← hi1]; exact m1.1
  have hTinfo : T.fullname = info.fullname := g1T.1.trans h1fn
  have hmetaT : T.meta = none ∨ T.meta = some { fallback_to_any := true } := by
    cases hm0 : info.meta with
    | none =>
        left
        rw [g1T.2.1, ← hi1, meta_run_none ctx info hm0]
        exact hm0
    | some m =>
        right
        rw [g1T.2.1, ← hi1, meta_run_some ctx info m hm0]
  have hS1 : (injectAnyAsBaseForNestedMeta_run ctx T).1 = T := by
    rw [meta_stable ctx T hmetaT]
  have hS2 : (addDefaultPrimaryKey_run ctx T).1 = T := by
    apply pk_stable ctx i1 T g1T.1 g1T.2.2.1
    · exact fun k hk => g1T.2.2.2 k hk
    · intro k hk
      rw [hi2] at hk
      exact g2T.2.2.2 k hk
  have hS3 : (addRelatedModelsId_run ctx T).1 = T := by
    cases hmT : ctx.get_model_class_by_fullname T.fullname with
    | none => rw [fk_run_none ctx T hmT]
    | some mc =>
        have hm2 : ctx.get_model_class_by_fullname i2.fullname = some mc := by
          rw [← g2T.1]; exact hmT
        have hnd : (fkAttnames mc.meta_fields).Nodup := by
          have hmi : ctx.get_model_class_by_fullname info.fullname = some mc := by
            rw [← hTinfo]; exact hmT
          unfold FkAttnamesDistinct at hd
          rw [hmi] at hd
          exact hd
        apply fk_stable ctx i2 T mc g2T.1 hmT hnd
        intro k s hk
        have hk3 : i3.names.lookup k = some s := by
          rw [← hi3, fk_run_eq ctx i2 mc hm2]
          exact hk
        have := mgr_preserves_some ctx i3 k s hk3
        rwa [hT] at this
  have hS4 : (addManagers_run ctx T).1 = T := by
    cases hm3 : ctx.get_model_class_by_fullname i3.fullname with
    | none =>
        have hTi3 : T = i3 := by rw [← hT, mgr_run_none ctx i3 hm3]
        rw [hTi3, mgr_run_none ctx i3 hm3]
    | some mc2 =>
        have := mgr_stable ctx i3 mc2 hm3
        rw [hT] at this
        exact this
  show (addManagers_run ctx (addRelatedModelsId_run ctx
    (addDefaultPrimaryKey_run ctx
      (injectAnyAsBaseForNestedMeta_run ctx
        (process_model_class ctx info).info).1).1).1).1 =
    (process_model_class ctx info).info
  rw [hproc, hS1, hS2, hS3, hS4]

/-- Witness for C3 at the concrete `app.Book` fixture. -/
theorem process_model_class_idempotent_witness :
    (process_model_class exCtx (process_model_class exCtx bookInfo).info).info =
      (process_model_class exCtx bookInfo).info :=
  process_model_class_idempotent exCtx bookInfo (by decide)

end DjangoStubs
